import Mathlib

/-!
# FX-Risk-Calculator: verification of the rate-acquisition orchestrator and
# the currency-conversion / portfolio-valuation engine

A shallow embedding, in Lean 4, of the core of the FX-Risk-Calculator
repository:

* `app/services/fx_conversion.py` — the currency conversion kernel
  (`normalize_currency`, `rebase_rates`, `convert_amount`,
  `convert_position_amount`);
* `app/providers/utils.py` — the provider-side `rebase_rates` variant;
* `app/services/orchestrator.py` — the primary/fallback orchestrator with
  its stale-snapshot cache;
* `app/services/portfolio_metrics.py` — the portfolio valuation engine
  (`calculate_portfolio_value`, `calculate_currency_exposure`,
  `calculate_daily_pnl`, `simulate_currency_shock` and their helpers).

Modelling conventions:

* Python `Decimal` values are embedded as exact rationals (`ℚ`).  All the
  quantities the claims touch are small decimal literals whose arithmetic is
  exact within the source's 28-significant-digit `ROUND_HALF_EVEN` context,
  so the exact-rational embedding agrees with the source on them.
* Python `dict`s are embedded as association lists (`List (String × ℚ)`),
  with `dictInsert` reproducing dict assignment (overwrite in place, append
  at the end when the key is new) and `lookupRate` reproducing lookup.
* Python exceptions are embedded as `Except`: a raised exception is an
  `.error` value, `try/except` is a `match` on the result.  The exception
  classes the claims distinguish (`RebaseError` missing/zero, invalid side,
  `ValidationError`, the orchestrator-level provider failure) are separate
  constructors.
* Timestamps are embedded as natural numbers (all the source does with them
  here is compare, sort and return them; UTC normalization is the identity
  in this model).
* The collaborators the spec declares external (§6) are parameters: a
  provider is a function `String → Except ProviderErr RateSnapshot`, the
  registry membership check `CurrencyAllowed` is a function
  `String → Bool`, positions and the persisted `fx_rates` rows are passed
  in as lists.
* Python's `str.strip`/`str.upper` are embedded character-wise
  (`pyStrip`/`pyUpper`); on ASCII inputs — the only inputs the claims and
  the source's own data model allow — they agree with Python.
-/

namespace FXRisk

/-- Results of fallible code are compared in the theorems, so `Except` needs
decidable equality. -/
instance {ε α : Type} [DecidableEq ε] [DecidableEq α] : DecidableEq (Except ε α)
  | .ok a, .ok b =>
      match decEq a b with
      | .isTrue h => .isTrue (h ▸ rfl)
      | .isFalse h => .isFalse (fun hh => h (Except.ok.inj hh))
  | .ok _, .error _ => .isFalse (fun hh => Except.noConfusion hh)
  | .error _, .ok _ => .isFalse (fun hh => Except.noConfusion hh)
  | .error a, .error b =>
      match decEq a b with
      | .isTrue h => .isTrue (h ▸ rfl)
      | .isFalse h => .isFalse (fun hh => h (Except.error.inj hh))

/-! ## Strings: Python `strip`, `upper`, `isascii` -/

/-- Python `str.isspace` on one character, restricted to the ASCII whitespace
characters Python strips (space, tab, newline, carriage return, vertical tab,
form feed). -/
def isPyWhitespace (c : Char) : Bool :=
  c = ' ' || c = '\t' || c = '\n' || c = '\r' || c = Char.ofNat 11 || c = Char.ofNat 12

/-- Python `str.strip()`: drop leading and trailing whitespace. -/
def pyStrip (s : String) : String :=
  String.mk (((s.data.dropWhile isPyWhitespace).reverse.dropWhile isPyWhitespace).reverse)

/-- Python `str.upper()` on one character (ASCII range; non-ASCII characters
are left unchanged, which agrees with Python on every input the data model
admits). -/
def pyUpperChar (c : Char) : Char :=
  if 97 ≤ c.toNat ∧ c.toNat ≤ 122 then Char.ofNat (c.toNat - 32) else c

/-- Python `str.upper()`. -/
def pyUpper (s : String) : String :=
  String.mk (s.data.map pyUpperChar)

/-- Python `str.isascii()`. -/
def isAsciiStr (s : String) : Bool :=
  s.data.all (fun c => c.toNat < 128)

/-! ## The conversion kernel's error type (`fx_conversion.py`) -/

/-- The exceptions of `fx_conversion.py`: `ValueError` from
`normalize_currency`, `RebaseError` (missing-rate or zero-rate), and the
invalid-side `ValueError` of `convert_amount`. -/
inductive FxErr where
  | invalidCurrency (msg : String)
  | rebaseMissing (code : String)
  | rebaseZero (code : String)
  | invalidSide (side : String)
deriving DecidableEq, Repr

/-- `normalize_currency` (fx_conversion.py:21): strip, uppercase, require
non-blank and all-ASCII. -/
def normalize_currency (code : String) : Except FxErr String :=
  if pyStrip code = "" then .error (.invalidCurrency "Currency code cannot be blank.")
  else
    let normalized := pyUpper (pyStrip code)
    if isAsciiStr normalized then .ok normalized
    else .error (.invalidCurrency "Currency code must be ASCII.")

/-! ## Rate tables as Python dicts -/

/-- A rate table: currency code to rate, in insertion order, as a Python
dict holds it. -/
abbrev RateTable := List (String × ℚ)

/-- Python dict assignment `d[k] = v`: overwrite in place if the key exists,
else append at the end. -/
def dictInsert (k : String) (v : ℚ) : RateTable → RateTable
  | [] => [(k, v)]
  | kv :: rest => if kv.1 = k then (k, v) :: rest else kv :: dictInsert k v rest

/-- Python dict lookup `d[k]` / `d.get(k)`. -/
def lookupRate : RateTable → String → Option ℚ
  | [], _ => none
  | kv :: rest, k => if kv.1 = k then some kv.2 else lookupRate rest k

/-- The keys of a table, in order. -/
def tableKeys (t : RateTable) : List String := t.map (·.1)

/-- The normalization loop of `rebase_rates` (fx_conversion.py:47-49):
`normalized_rates[normalize_currency(code)] = to_decimal(value)` over the
input items, into a fresh dict. -/
def normalizeTableAux (acc : RateTable) : RateTable → Except FxErr RateTable
  | [] => .ok acc
  | kv :: rest => do
      let k ← normalize_currency kv.1
      normalizeTableAux (dictInsert k kv.2 acc) rest

/-- The normalized copy of a rate table (`to_decimal` is the identity in the
exact-rational embedding). -/
def normalizeTable (t : RateTable) : Except FxErr RateTable :=
  normalizeTableAux [] t

/-- `rebase_rates` (fx_conversion.py:44-66): normalize the table and the new
base, fail on a missing or zero rate for the new base, else divide every
entry by the new base's rate. -/
def rebase_rates (rates : RateTable) (new_base : String) : Except FxErr RateTable := do
  let normalized ← normalizeTable rates
  let target ← normalize_currency new_base
  match lookupRate normalized target with
  | none => .error (.rebaseMissing target)
  | some base_rate =>
      if base_rate = 0 then .error (.rebaseZero target)
      else .ok (normalized.map (fun kv => (kv.1, kv.2 / base_rate)))

/-- The normalization loop of the provider-side `rebase_rates`
(providers/utils.py:29): plain `code.upper()`, no strip, cannot fail. -/
def normalizeTableUpperAux (acc : RateTable) : RateTable → RateTable
  | [] => acc
  | kv :: rest => normalizeTableUpperAux (dictInsert (pyUpper kv.1) kv.2 acc) rest

/-- `rebase_rates` of providers/utils.py (lines 13-43): same algorithm with
the lighter normalization (`code.upper()` on keys,
`new_base.strip().upper()` on the target). -/
def rebase_rates_utils (rates : RateTable) (new_base : String) : Except FxErr RateTable :=
  let normalized := normalizeTableUpperAux [] rates
  let target := pyUpper (pyStrip new_base)
  match lookupRate normalized target with
  | none => .error (.rebaseMissing target)
  | some base_rate =>
      if base_rate = 0 then .error (.rebaseZero target)
      else .ok (normalized.map (fun kv => (kv.1, kv.2 / base_rate)))

/-- `convert_amount` (fx_conversion.py:69-88): validate the side after
stripping and uppercasing, multiply, negate for SHORT. -/
def convert_amount (amount rate : ℚ) (side : String) : Except FxErr ℚ :=
  let normalized_side := pyUpper (pyStrip side)
  if normalized_side = "LONG" ∨ normalized_side = "SHORT" then
    let converted := amount * rate
    .ok (if normalized_side = "SHORT" then -converted else converted)
  else .error (.invalidSide side)

/-- `convert_position_amount` (fx_conversion.py:91-114): rate 1 when the
position currency equals the base, else look the rate up, `RebaseError`
when absent. -/
def convert_position_amount (native_amount : ℚ) (position_currency portfolio_base : String)
    (rate_lookup : RateTable) (side : String) : Except FxErr ℚ := do
  let position_currency_norm ← normalize_currency position_currency
  let portfolio_base_norm ← normalize_currency portfolio_base
  if position_currency_norm = portfolio_base_norm then
    convert_amount native_amount 1 side
  else
    match lookupRate rate_lookup position_currency_norm with
    | none => .error (.rebaseMissing position_currency_norm)
    | some rate => convert_amount native_amount rate side

/-! ## Display rounding

`portfolio_metrics.py` imports `quantize_amount` from
`app.services.fx_conversion`, but no definition of it appears anywhere in
the repository's files; only its call sites do. -/

/-- Round-half-to-even of a rational to an integer, the rounding mode of the
source's shared `Decimal` context (`ROUND_HALF_EVEN`). -/
def roundHalfEven (q : ℚ) : ℤ :=
  let f := ⌊q⌋
  let r := q - f
  if r < 1/2 then f
  else if 1/2 < r then f + 1
  else if f % 2 = 0 then f else f + 1

/-- Modelled from the spec: `quantize_amount`, the display-precision rounding
helper missing from the repository's files (imported by
`portfolio_metrics.py` from `app.services.fx_conversion`).  Per the spec,
"only the externally-visible totals are rounded (2 decimal places for
currency amounts, 4 for native position aggregates) at the very end", in the
round-half-to-even decimal context. -/
def quantize_amount (value : ℚ) (places : ℕ := 2) : ℚ :=
  (roundHalfEven (value * (10 : ℚ) ^ places) : ℚ) / (10 : ℚ) ^ places

/-! ## Data model -/

/-- `PositionType` (models/__init__.py:99): the two-variant side enum. -/
inductive PositionType where
  | LONG
  | SHORT
deriving DecidableEq, Repr

/-- The `.value` string of the enum member, as the engine passes it to
`convert_amount`. -/
def PositionType.value : PositionType → String
  | .LONG => "LONG"
  | .SHORT => "SHORT"

/-- `Position` (models/__init__.py:106), restricted to the columns the
valuation engine loads: currency code, amount, side. -/
structure Position where
  currency_code : String
  amount : ℚ
  side : PositionType
deriving DecidableEq, Repr

/-- `Portfolio` (models/__init__.py:29), restricted to the field the engine
reads. -/
structure Portfolio where
  base_currency_code : String
deriving DecidableEq, Repr

/-- One row of the `fx_rates` table (model `FxRate`,
models/__init__.py:52), restricted to the columns the engine queries. -/
structure FxRow where
  base : String
  target : String
  timestamp : ℕ
  rate : ℚ
deriving DecidableEq, Repr

/-- `RateSnapshot` (providers/schemas.py:27).  The orchestrator treats it as
opaque data; its `__post_init__` normalization happens on the provider side
and is not re-modelled here. -/
structure RateSnapshot where
  base_currency : String
  source : String
  timestamp : ℕ
  rates : RateTable
deriving DecidableEq, Repr

/-! ## Errors of the engine layer -/

/-- The engine-level exceptions: `ValidationError` (message and offending
field, errors.py:25) and the uncaught kernel `ValueError`s that propagate
through the engine (`AppError.fx`). -/
inductive AppError where
  | validation (msg field : String)
  | fx (e : FxErr)
deriving DecidableEq, Repr

/-! ## Unpriced-reason accumulation -/

/-- The two reason codes of the `UnpricedReasonMap`
(portfolio_metrics.py:32-33). -/
inductive UnpricedReason where
  | missingRate
  | unknownCurrency
deriving DecidableEq, Repr

/-- The reason-to-currency-set map, one set per reason code.  Each list is
kept duplicate-free, modelling the Python `set`. -/
structure ReasonMap where
  missing_rate : List String
  unknown_currency : List String
deriving DecidableEq, Repr

def emptyReasonMap : ReasonMap := ⟨[], []⟩

/-- Add to a set: no-op when already present. -/
def insertCode (c : String) (l : List String) : List String :=
  if c ∈ l then l else l ++ [c]

/-- `_add_reason` (portfolio_metrics.py:260-269): skip falsy codes,
strip-uppercase, skip when that leaves nothing, else add to the reason's
set. -/
def addReason (m : ReasonMap) (reason : UnpricedReason) (currency_code : String) : ReasonMap :=
  let normalized := pyUpper (pyStrip currency_code)
  if normalized = "" then m
  else
    match reason with
    | .missingRate => { m with missing_rate := insertCode normalized m.missing_rate }
    | .unknownCurrency => { m with unknown_currency := insertCode normalized m.unknown_currency }

/-! ## Persistence queries over `fx_rates` rows

The spec treats persistence as a collaborator (§6); these functions embed
the query helpers of portfolio_metrics.py over an explicit list of rows. -/

/-- The most recent timestamp for a canonical base
(the `order_by(desc(timestamp)).limit(1)` query of `_latest_rates`,
portfolio_metrics.py:182-188). -/
def latestTimestamp (rows : List FxRow) (canonical_base : String) : Option ℕ :=
  match (rows.filter (fun r => r.base = canonical_base)).map (·.timestamp) with
  | [] => none
  | t :: ts => some (ts.foldl max t)

/-- `_rates_for_timestamps` restricted to a single timestamp, as
`_rates_for_timestamp` (portfolio_metrics.py:823-825) uses it: the rows of
the canonical base at that timestamp keyed by normalized target code, plus
a 1 entry for the base itself when any row matched. -/
def ratesForTimestamp (rows : List FxRow) (canonical_base : String) (ts : ℕ) :
    Except FxErr RateTable := do
  let base_code ← normalize_currency canonical_base
  let relevant := rows.filter (fun r => r.base = canonical_base ∧ r.timestamp = ts)
  let tbl ← relevant.foldlM (fun acc r => do
      let target ← normalize_currency r.target
      pure (dictInsert target r.rate acc)) ([] : RateTable)
  pure (if tbl.isEmpty then tbl else dictInsert base_code 1 tbl)

/-- `_latest_rates` (portfolio_metrics.py:181-195): the rate table at the
most recent timestamp, with that timestamp, or `([], none)`. -/
def latestRates (rows : List FxRow) (canonical_base : String) :
    Except FxErr (RateTable × Option ℕ) := do
  match latestTimestamp rows canonical_base with
  | none => pure ([], none)
  | some ts => do
      let tbl ← ratesForTimestamp rows canonical_base ts
      pure (tbl, some ts)

/-- `_latest_two_timestamps` (portfolio_metrics.py:804-820): the two most
recent distinct timestamps for the canonical base. -/
def latestTwoTimestamps (rows : List FxRow) (canonical_base : String) :
    Option ℕ × Option ℕ :=
  let ts := ((rows.filter (fun r => r.base = canonical_base)).map (·.timestamp)).dedup
  match ts.insertionSort (· ≥ ·) with
  | [] => (none, none)
  | [t] => (some t, none)
  | t1 :: t2 :: _ => (some t1, some t2)

/-! ## The shared rate-resolution pipeline -/

/-- The `ValidationError` of `_missing_view_base_error`
(portfolio_metrics.py:198-207). -/
def missingViewBaseError : AppError :=
  .validation "FX rates are unavailable for the requested base currency." "base"

/-- `validate_currency_code` (validation.py:20-41): required, ASCII,
registry-allowed; returns the strip-uppercased code.  The registry
membership check is the `CurrencyAllowed` collaborator `allowed`. -/
def validate_currency_code (value : Option String) (fld : String)
    (allowed : String → Bool) : Except AppError String :=
  match value with
  | none => .error (.validation "required" fld)
  | some v =>
      if pyStrip v = "" then .error (.validation "required" fld)
      else
        let normalized := pyUpper (pyStrip v)
        if ¬ isAsciiStr normalized then .error (.validation "Unsupported currency code." fld)
        else if ¬ allowed normalized then .error (.validation "Unsupported currency code." fld)
        else .ok normalized

/-- The inversion loop of `_rates_in_view_base`
(portfolio_metrics.py:238-251): view base maps to 1, zero quotes are
skipped, every other quote is inverted. -/
def invertLoop (view_norm : String) (source_rates : RateTable) (acc : RateTable) :
    Except FxErr RateTable :=
  match source_rates with
  | [] => .ok acc
  | kv :: rest => do
      let normalized_code ← normalize_currency kv.1
      if normalized_code = view_norm then
        invertLoop view_norm rest (dictInsert normalized_code 1 acc)
      else if kv.2 = 0 then
        invertLoop view_norm rest acc
      else
        invertLoop view_norm rest (dictInsert normalized_code (1 / kv.2) acc)

/-- `_rates_in_view_base` (portfolio_metrics.py:210-253): normalize the
stored table, default the canonical base to 1, require the view base to be
derivable (else the missing-view-base `ValidationError`), rebase when the
view base differs from the canonical base, then invert into
"view-base units per unit of currency". -/
def ratesInViewBase (rates_map : RateTable) (canonical_base view_base : String) :
    Except AppError RateTable := do
  let canonical_norm ← (normalize_currency canonical_base).mapError AppError.fx
  let view_norm ← (normalize_currency view_base).mapError AppError.fx
  let normalized ← (normalizeTable rates_map).mapError AppError.fx
  let normalized :=
    if lookupRate normalized canonical_norm = none then dictInsert canonical_norm 1 normalized
    else normalized
  if view_norm ≠ canonical_norm ∧ lookupRate normalized view_norm = none then
    .error missingViewBaseError
  else do
    let source_rates ←
      if view_norm = canonical_norm then pure normalized
      else
        match rebase_rates normalized view_norm with
        | .ok rebased => pure (dictInsert view_norm 1 rebased)
        | .error (.rebaseMissing _) => .error missingViewBaseError
        | .error (.rebaseZero _) => .error missingViewBaseError
        | .error e => .error (.fx e)
    (invertLoop view_norm source_rates []).mapError AppError.fx

/-! ## The per-position pricing discipline -/

/-- The running totals of `_portfolio_value_from_rates`. -/
structure ValueAcc where
  total : ℚ
  priced : ℕ
  unpriced : ℕ
  reasons : ReasonMap
deriving DecidableEq, Repr

def emptyValueAcc : ValueAcc := ⟨0, 0, 0, emptyReasonMap⟩

/-- One iteration of the loop of `_portfolio_value_from_rates`
(portfolio_metrics.py:839-867): invalid code → `unknown_currency`;
registry-rejected → `unknown_currency`; missing rate → `missing_rate`;
otherwise accumulate.  A non-`RebaseError` failure of the conversion
(impossible for enum sides) propagates, as the uncaught exception would. -/
def valueStep (view_base : String) (rate_lookup : RateTable) (allowed : String → Bool)
    (acc : ValueAcc) (p : Position) : Except AppError ValueAcc :=
  match normalize_currency p.currency_code with
  | .error _ =>
      let normalized_currency := pyUpper (pyStrip p.currency_code)
      .ok ⟨acc.total, acc.priced, acc.unpriced + 1,
           addReason acc.reasons .unknownCurrency normalized_currency⟩
  | .ok normalized_currency =>
      if ¬ allowed normalized_currency then
        .ok ⟨acc.total, acc.priced, acc.unpriced + 1,
             addReason acc.reasons .unknownCurrency normalized_currency⟩
      else
        match convert_position_amount p.amount normalized_currency view_base rate_lookup
            p.side.value with
        | .error (.rebaseMissing _) =>
            .ok ⟨acc.total, acc.priced, acc.unpriced + 1,
                 addReason acc.reasons .missingRate normalized_currency⟩
        | .error (.rebaseZero _) =>
            .ok ⟨acc.total, acc.priced, acc.unpriced + 1,
                 addReason acc.reasons .missingRate normalized_currency⟩
        | .error e => .error (.fx e)
        | .ok converted => .ok ⟨acc.total + converted, acc.priced + 1, acc.unpriced, acc.reasons⟩

/-- `_portfolio_value_from_rates` (portfolio_metrics.py:828-868). -/
def portfolioValueFromRates (positions : List Position) (view_base : String)
    (rate_lookup : RateTable) (allowed : String → Bool) : Except AppError ValueAcc :=
  positions.foldlM (valueStep view_base rate_lookup allowed) emptyValueAcc

/-- The `view_base or portfolio_base` default of the engine entry points
(empty string is falsy in Python). -/
def requestedViewBase (view_base : Option String) (portfolio_base : String) : String :=
  match view_base with
  | none => portfolio_base
  | some v => if v = "" then portfolio_base else v

/-! ## `calculate_portfolio_value` -/

/-- `PortfolioValueResult` (portfolio_metrics.py:36-47), without the echoed
portfolio id. -/
structure PortfolioValueResult where
  portfolio_base : String
  view_base : String
  value : ℚ
  priced : ℕ
  unpriced : ℕ
  unpriced_reasons : ReasonMap
  as_of : Option ℕ
deriving DecidableEq, Repr

/-- `calculate_portfolio_value` (portfolio_metrics.py:75-143).  The
portfolio row, its positions, the `fx_rates` rows, the registry check and
the `FX_CANONICAL_BASE` config value are the collaborator inputs. -/
def calculate_portfolio_value (portfolio : Portfolio) (positions : List Position)
    (rows : List FxRow) (allowed : String → Bool) (canonical_base_config : String)
    (view_base : Option String) : Except AppError PortfolioValueResult := do
  let portfolio_base ← (normalize_currency portfolio.base_currency_code).mapError AppError.fx
  let resolved_view_base ←
    validate_currency_code (some (requestedViewBase view_base portfolio_base)) "base" allowed
  if positions.isEmpty then
    pure ⟨portfolio_base, resolved_view_base, quantize_amount 0, 0, 0, emptyReasonMap, none⟩
  else do
    let canonical_base ← (normalize_currency canonical_base_config).mapError AppError.fx
    let latest ← (latestRates rows canonical_base).mapError AppError.fx
    match latest with
    | (rates_map, as_of) =>
      match as_of with
      | none =>
          let reason_map := positions.foldl
            (fun m p => addReason m .missingRate p.currency_code) emptyReasonMap
          pure ⟨portfolio_base, resolved_view_base, quantize_amount 0, 0, positions.length,
                reason_map, none⟩
      | some ts =>
          if rates_map.isEmpty then
            let reason_map := positions.foldl
              (fun m p => addReason m .missingRate p.currency_code) emptyReasonMap
            pure ⟨portfolio_base, resolved_view_base, quantize_amount 0, 0, positions.length,
                  reason_map, none⟩
          else do
            let effective_rates ← ratesInViewBase rates_map canonical_base resolved_view_base
            let acc ← portfolioValueFromRates positions resolved_view_base effective_rates allowed
            pure ⟨portfolio_base, resolved_view_base, quantize_amount acc.total, acc.priced,
                  acc.unpriced, acc.reasons, some ts⟩

/-! ## `calculate_daily_pnl` -/

/-- `PortfolioDailyPnLResult` (portfolio_metrics.py:427-443), without the
echoed portfolio id. -/
structure PortfolioDailyPnLResult where
  portfolio_base : String
  view_base : String
  pnl : ℚ
  value_current : ℚ
  value_previous : Option ℚ
  as_of : Option ℕ
  prev_date : Option ℕ
  positions_changed : Bool
  priced_current : ℕ
  unpriced_current : ℕ
  priced_previous : ℕ
  unpriced_previous : ℕ
  unpriced_reasons_current : ReasonMap
  unpriced_reasons_previous : ReasonMap
deriving DecidableEq, Repr

/-- The all-unpriced reason map over a position list (the loops at
portfolio_metrics.py:502-504 and 528-530). -/
def allMissingReasons (positions : List Position) : ReasonMap :=
  positions.foldl (fun m p => addReason m .missingRate p.currency_code) emptyReasonMap

/-- `calculate_daily_pnl` (portfolio_metrics.py:459-609). -/
def calculate_daily_pnl (portfolio : Portfolio) (positions : List Position)
    (rows : List FxRow) (allowed : String → Bool) (canonical_base_config : String)
    (view_base : Option String) : Except AppError PortfolioDailyPnLResult := do
  let portfolio_base ← (normalize_currency portfolio.base_currency_code).mapError AppError.fx
  let resolved_view_base ←
    validate_currency_code (some (requestedViewBase view_base portfolio_base)) "base" allowed
  if positions.isEmpty then
    pure ⟨portfolio_base, resolved_view_base, quantize_amount 0, quantize_amount 0, none,
          none, none, false, 0, 0, 0, 0, emptyReasonMap, emptyReasonMap⟩
  else do
    let canonical_base ← (normalize_currency canonical_base_config).mapError AppError.fx
    match latestTwoTimestamps rows canonical_base with
    | (latest_ts, previous_ts) =>
      match latest_ts, previous_ts with
      | some latest_timestamp, some previous_timestamp => do
          let latest_rates ← (ratesForTimestamp rows canonical_base latest_timestamp).mapError
            AppError.fx
          let previous_rates ← (ratesForTimestamp rows canonical_base previous_timestamp).mapError
            AppError.fx
          if latest_rates.isEmpty ∨ previous_rates.isEmpty then
            pure ⟨portfolio_base, resolved_view_base, quantize_amount 0, quantize_amount 0, none,
                  some latest_timestamp, some previous_timestamp, false,
                  0, positions.length, 0, positions.length,
                  allMissingReasons positions, allMissingReasons positions⟩
          else do
            let effective_latest ← ratesInViewBase latest_rates canonical_base resolved_view_base
            let effective_previous ←
              ratesInViewBase previous_rates canonical_base resolved_view_base
            let acc_current ←
              portfolioValueFromRates positions resolved_view_base effective_latest allowed
            let acc_previous ←
              portfolioValueFromRates positions resolved_view_base effective_previous allowed
            let value_current := quantize_amount acc_current.total
            let value_previous := quantize_amount acc_previous.total
            pure ⟨portfolio_base, resolved_view_base,
                  quantize_amount (value_current - value_previous),
                  value_current, some value_previous,
                  some latest_timestamp, some previous_timestamp, false,
                  acc_current.priced, acc_current.unpriced,
                  acc_previous.priced, acc_previous.unpriced,
                  acc_current.reasons, acc_previous.reasons⟩
      | latest_ts, _ =>
          pure ⟨portfolio_base, resolved_view_base, quantize_amount 0, quantize_amount 0, none,
                latest_ts, none, false, 0, positions.length, 0, positions.length,
                allMissingReasons positions, allMissingReasons positions⟩

/-! ## `calculate_currency_exposure` -/

/-- `CurrencyExposure` (portfolio_metrics.py:276-280). -/
structure CurrencyExposure where
  currency_code : String
  net_native : ℚ
  base_equivalent : ℚ
deriving DecidableEq, Repr

/-- `PortfolioExposureResult` (portfolio_metrics.py:283-292), without the
echoed portfolio id. -/
structure PortfolioExposureResult where
  portfolio_base : String
  view_base : String
  exposures : List CurrencyExposure
  priced : ℕ
  unpriced : ℕ
  as_of : Option ℕ
  unpriced_reasons : ReasonMap
deriving DecidableEq, Repr

/-- The running state of the exposure grouping loop
(portfolio_metrics.py:349-388): per-currency (native, base) totals as a
dict, plus the priced/unpriced counters and the reason map. -/
structure ExposureAcc where
  totals : List (String × ℚ × ℚ)
  priced : ℕ
  unpriced : ℕ
  reasons : ReasonMap
deriving DecidableEq, Repr

def emptyExposureAcc : ExposureAcc := ⟨[], 0, 0, emptyReasonMap⟩

/-- `totals.setdefault(c, zero)` followed by the `+=` updates: add the
deltas into the currency's bucket, appending a fresh bucket when new. -/
def bumpTotal (totals : List (String × ℚ × ℚ)) (c : String) (dn db : ℚ) :
    List (String × ℚ × ℚ) :=
  match totals with
  | [] => [(c, dn, db)]
  | (k, n, b) :: rest =>
      if k = c then (k, n + dn, b + db) :: rest else (k, n, b) :: bumpTotal rest c dn db

/-- One iteration of the exposure grouping loop
(portfolio_metrics.py:354-388). -/
def exposureStep (view_base : String) (rate_lookup : RateTable) (allowed : String → Bool)
    (acc : ExposureAcc) (p : Position) : Except AppError ExposureAcc :=
  match normalize_currency p.currency_code with
  | .error _ =>
      let currency := pyUpper (pyStrip p.currency_code)
      .ok ⟨acc.totals, acc.priced, acc.unpriced + 1,
           addReason acc.reasons .unknownCurrency currency⟩
  | .ok currency =>
      if ¬ allowed currency then
        .ok ⟨acc.totals, acc.priced, acc.unpriced + 1,
             addReason acc.reasons .unknownCurrency currency⟩
      else
        match convert_position_amount p.amount currency view_base rate_lookup p.side.value with
        | .error (.rebaseMissing _) =>
            .ok ⟨acc.totals, acc.priced, acc.unpriced + 1,
                 addReason acc.reasons .missingRate currency⟩
        | .error (.rebaseZero _) =>
            .ok ⟨acc.totals, acc.priced, acc.unpriced + 1,
                 addReason acc.reasons .missingRate currency⟩
        | .error e => .error (.fx e)
        | .ok base_equiv =>
            match convert_amount p.amount 1 p.side.value with
            | .error e => .error (.fx e)
            | .ok native_signed =>
                .ok ⟨bumpTotal acc.totals currency native_signed base_equiv,
                     acc.priced + 1, acc.unpriced, acc.reasons⟩

/-- The exposure grouping loop over all positions. -/
def exposureLoop (positions : List Position) (view_base : String) (rate_lookup : RateTable)
    (allowed : String → Bool) : Except AppError ExposureAcc :=
  positions.foldlM (exposureStep view_base rate_lookup allowed) emptyExposureAcc

/-- The per-currency exposure entries built from the grouped totals
(portfolio_metrics.py:390-398): a 4-place native figure and a 2-place
view-base figure per currency. -/
def exposuresFromTotals (totals : List (String × ℚ × ℚ)) : List CurrencyExposure :=
  totals.map (fun kv => ⟨kv.1, quantize_amount kv.2.1 4, quantize_amount kv.2.2 2⟩)

/-- The sort order of the exposure list (portfolio_metrics.py:399):
descending absolute view-base magnitude. -/
def exposureOrd (a b : CurrencyExposure) : Prop :=
  |b.base_equivalent| ≤ |a.base_equivalent|

instance : DecidableRel exposureOrd :=
  fun a b => inferInstanceAs (Decidable (|b.base_equivalent| ≤ |a.base_equivalent|))

/-- The Python stable sort with `key=abs(base), reverse=True`. -/
def sortExposures (l : List CurrencyExposure) : List CurrencyExposure :=
  l.insertionSort exposureOrd

/-- The `top_n` collapse (portfolio_metrics.py:401-413): keep the head,
fold the tail into one synthetic `OTHER` entry. -/
def collapseTopN (top_n : Option ℕ) (exposures : List CurrencyExposure) :
    List CurrencyExposure :=
  match top_n with
  | none => exposures
  | some n =>
      if 0 < n ∧ n < exposures.length then
        exposures.take n ++
          [⟨"OTHER", quantize_amount ((exposures.drop n).map (·.net_native)).sum 4,
            quantize_amount ((exposures.drop n).map (·.base_equivalent)).sum 2⟩]
      else exposures

/-- `calculate_currency_exposure` (portfolio_metrics.py:295-424). -/
def calculate_currency_exposure (portfolio : Portfolio) (positions : List Position)
    (rows : List FxRow) (allowed : String → Bool) (canonical_base_config : String)
    (view_base : Option String) (top_n : Option ℕ) :
    Except AppError PortfolioExposureResult := do
  let portfolio_base ← (normalize_currency portfolio.base_currency_code).mapError AppError.fx
  let resolved_view_base ←
    validate_currency_code (some (requestedViewBase view_base portfolio_base)) "base" allowed
  if positions.isEmpty then
    pure ⟨portfolio_base, resolved_view_base, [], 0, 0, none, emptyReasonMap⟩
  else do
    let canonical_base ← (normalize_currency canonical_base_config).mapError AppError.fx
    let latest ← (latestRates rows canonical_base).mapError AppError.fx
    match latest with
    | (rates_map, as_of) =>
      match as_of with
      | none =>
          pure ⟨portfolio_base, resolved_view_base, [], 0, positions.length, none,
                allMissingReasons positions⟩
      | some ts =>
          if rates_map.isEmpty then
            pure ⟨portfolio_base, resolved_view_base, [], 0, positions.length, none,
                  allMissingReasons positions⟩
          else do
            let effective_rates ← ratesInViewBase rates_map canonical_base resolved_view_base
            let acc ← exposureLoop positions resolved_view_base effective_rates allowed
            let exposures := collapseTopN top_n (sortExposures (exposuresFromTotals acc.totals))
            pure ⟨portfolio_base, resolved_view_base, exposures, acc.priced, acc.unpriced,
                  some ts, acc.reasons⟩

/-! ## `simulate_currency_shock` -/

/-- `PortfolioWhatIfResult` (portfolio_metrics.py:446-456), without the
echoed portfolio id. -/
structure PortfolioWhatIfResult where
  portfolio_base : String
  view_base : String
  shocked_currency : String
  shock_pct : ℚ
  current_value : ℚ
  new_value : ℚ
  delta_value : ℚ
  as_of : Option ℕ
deriving DecidableEq, Repr

/-- `_apply_currency_shock` (portfolio_metrics.py:908-926): rebuild the
table, multiplying only the shocked currency's rate by the factor. -/
def applyCurrencyShock (rates : RateTable) (currency : String) (shock_factor : ℚ) :
    Except FxErr RateTable := do
  let normalized_currency ← normalize_currency currency
  rates.foldlM (fun acc kv => do
      let code_norm ← normalize_currency kv.1
      pure (dictInsert code_norm
        (if code_norm = normalized_currency then kv.2 * shock_factor else kv.2) acc))
    ([] : RateTable)

/-- `simulate_currency_shock` (portfolio_metrics.py:693-801). -/
def simulate_currency_shock (portfolio : Portfolio) (positions : List Position)
    (rows : List FxRow) (allowed : String → Bool) (canonical_base_config : String)
    (currency : String) (shock_pct : ℚ) (view_base : Option String) :
    Except AppError PortfolioWhatIfResult := do
  if positions.isEmpty then
    .error (.validation "Portfolio has no positions to simulate." "portfolio_id")
  else do
    let portfolio_base ← (normalize_currency portfolio.base_currency_code).mapError AppError.fx
    let resolved_view_base ←
      validate_currency_code (some (requestedViewBase view_base portfolio_base)) "base" allowed
    let shocked_currency ← validate_currency_code (some currency) "currency" allowed
    if shock_pct < -10 ∨ 10 < shock_pct then
      .error (.validation "shock_pct must be between -10 and 10." "shock_pct")
    else do
      let shock_factor := 1 + shock_pct / 100
      let canonical_base ← (normalize_currency canonical_base_config).mapError AppError.fx
      let latest ← (latestRates rows canonical_base).mapError AppError.fx
      match latest with
      | (rates_map, as_of) =>
        match as_of with
        | none => .error (.validation "FX rates are unavailable for simulation." "rates")
        | some ts =>
            if rates_map.isEmpty then
              .error (.validation "FX rates are unavailable for simulation." "rates")
            else do
              let effective_rates ← ratesInViewBase rates_map canonical_base resolved_view_base
              let acc ←
                portfolioValueFromRates positions resolved_view_base effective_rates allowed
              if 0 < acc.unpriced then
                .error (.validation "Unable to price all positions with current FX rates."
                  "unpriced_positions")
              else
                match lookupRate effective_rates shocked_currency with
                | none => .error (.validation "Missing FX rate for currency." "currency")
                | some _ => do
                    let shocked_rates ←
                      (applyCurrencyShock effective_rates shocked_currency shock_factor).mapError
                        AppError.fx
                    let acc_new ←
                      portfolioValueFromRates positions resolved_view_base shocked_rates allowed
                    if 0 < acc_new.unpriced then
                      .error (.validation "Unable to price all positions with shocked FX rates."
                        "unpriced_positions")
                    else
                      pure ⟨portfolio_base, resolved_view_base, shocked_currency, shock_pct,
                            acc.total, acc_new.total, acc_new.total - acc.total, some ts⟩

/-! ## The rate orchestrator (`orchestrator.py`) -/

/-- A provider error: the exception's message. -/
abbrev ProviderErr := String

/-- A provider's `get_latest`, the collaborator interface the orchestrator
depends on (providers/base.py:20). -/
abbrev Provider := String → Except ProviderErr RateSnapshot

/-- `SnapshotRecord` (orchestrator.py:16-19). -/
structure SnapshotRecord where
  snapshot : RateSnapshot
  stale : Bool
deriving DecidableEq, Repr

/-- The orchestrator's state (orchestrator.py:25-32): primary provider,
optional fallback, last-known snapshot record. -/
structure Orchestrator where
  primary : Provider
  fallback : Option Provider
  last_snapshot : Option SnapshotRecord

/-- The message of the `ProviderError` raised on total failover exhaustion
(orchestrator.py:107-109) — the spec's orchestrator-level
`ProviderUnavailable`. -/
def providerUnavailableMsg : ProviderErr :=
  "Unable to refresh rates from any provider and no cached snapshot available"

/-- `Orchestrator.refresh_latest` (orchestrator.py:34-127): primary, then
fallback, then the stale cache, else the unrecoverable failure.  Returns
the call's result together with the orchestrator's state after the call. -/
def refresh_latest (o : Orchestrator) (base : String) :
    Except ProviderErr RateSnapshot × Orchestrator :=
  match o.primary base with
  | .ok snapshot => (.ok snapshot, { o with last_snapshot := some ⟨snapshot, false⟩ })
  | .error _ =>
      let fallback_result : Option RateSnapshot :=
        match o.fallback with
        | none => none
        | some fb =>
            match fb base with
            | .ok snapshot => some snapshot
            | .error _ => none
      match fallback_result with
      | some snapshot => (.ok snapshot, { o with last_snapshot := some ⟨snapshot, false⟩ })
      | none =>
          match o.last_snapshot with
          | none => (.error providerUnavailableMsg, o)
          | some cached_record =>
              (.ok cached_record.snapshot,
               { o with last_snapshot := some ⟨cached_record.snapshot, true⟩ })

/-- `Orchestrator.get_snapshot_info` (orchestrator.py:129-130). -/
def get_snapshot_info (o : Orchestrator) : Option SnapshotRecord :=
  o.last_snapshot

end FXRisk

namespace FXRisk

set_option maxRecDepth 10000

/-! # Theorems -/

/-! Reduction lemmas for the `Except` monad, so the embedded programs
compute under `simp`. -/

@[simp] theorem except_bind_ok {ε α β : Type} (a : α) (f : α → Except ε β) :
    (Except.ok a : Except ε α) >>= f = f a := rfl

@[simp] theorem except_bind_error {ε α β : Type} (e : ε) (f : α → Except ε β) :
    (Except.error e : Except ε α) >>= f = Except.error e := rfl

@[simp] theorem except_map_ok {ε α β : Type} (f : α → β) (a : α) :
    f <$> (Except.ok a : Except ε α) = Except.ok (f a) := rfl

@[simp] theorem except_map_error {ε α β : Type} (f : α → β) (e : ε) :
    f <$> (Except.error e : Except ε α) = Except.error e := rfl

@[simp] theorem except_mapError_ok {ε ε' α : Type} (f : ε → ε') (a : α) :
    Except.mapError f (Except.ok a : Except ε α) = Except.ok a := rfl

@[simp] theorem except_mapError_error {ε ε' α : Type} (f : ε → ε') (e : ε) :
    Except.mapError f (Except.error e : Except ε α) = Except.error (f e) := rfl

@[simp] theorem except_pure_eq_ok {ε α : Type} (a : α) :
    (pure a : Except ε α) = Except.ok a := rfl

/-- C1.  `Orchestrator.refresh_latest` satisfies the three-step failover
postcondition: a successful primary call returns the primary's snapshot and
stores it non-stale; a failed primary with a successful fallback returns the
fallback's snapshot and stores it non-stale; when both fail and a snapshot
is cached, the call returns exactly the cached snapshot and re-stores it
with `stale = true`. -/
theorem refresh_latest_failover (o : Orchestrator) (base : String) :
    (∀ snapshot, o.primary base = .ok snapshot →
      refresh_latest o base =
        (.ok snapshot, { o with last_snapshot := some ⟨snapshot, false⟩ })) ∧
    (∀ e fb snapshot, o.primary base = .error e → o.fallback = some fb →
      fb base = .ok snapshot →
      refresh_latest o base =
        (.ok snapshot, { o with last_snapshot := some ⟨snapshot, false⟩ })) ∧
    (∀ e cached, o.primary base = .error e →
      (o.fallback = none ∨ ∃ fb e2, o.fallback = some fb ∧ fb base = .error e2) →
      o.last_snapshot = some cached →
      refresh_latest o base =
        (.ok cached.snapshot, { o with last_snapshot := some ⟨cached.snapshot, true⟩ })) := by
  refine ⟨?_, ?_, ?_⟩
  · intro snapshot h
    simp [refresh_latest, h]
  · intro e fb snapshot hp hf hs
    simp [refresh_latest, hp, hf, hs]
  · intro e cached hp hf hl
    rcases hf with hnone | ⟨fb, e2, hfb, herr⟩
    · simp [refresh_latest, hp, hnone, hl]
    · simp [refresh_latest, hp, hfb, herr, hl]

/-- C5.  `refresh_latest` fails (necessarily with the orchestrator-level
provider-unavailable error) exactly when the primary fails, the fallback is
absent or fails, and nothing is cached; in that case the state is unchanged
and `get_snapshot_info` still returns empty. -/
theorem refresh_latest_unavailable (o : Orchestrator) (base : String) :
    ((refresh_latest o base).1 = .error providerUnavailableMsg ↔
      ((∃ e, o.primary base = .error e) ∧
       (o.fallback = none ∨ ∃ fb e, o.fallback = some fb ∧ fb base = .error e) ∧
       o.last_snapshot = none)) ∧
    (∀ e, (refresh_latest o base).1 = .error e → e = providerUnavailableMsg) ∧
    ((refresh_latest o base).1 = .error providerUnavailableMsg →
      (refresh_latest o base).2 = o ∧
      get_snapshot_info (refresh_latest o base).2 = none) := by
  rcases hp : o.primary base with e | snap
  · rcases hf : o.fallback with _ | fb
    · rcases hl : o.last_snapshot with _ | cached
      · simp [refresh_latest, get_snapshot_info, hp, hf, hl]
      · simp [refresh_latest, get_snapshot_info, hp, hf, hl]
    · rcases hfb : fb base with e2 | snap2
      · rcases hl : o.last_snapshot with _ | cached
        · refine ⟨by simp [refresh_latest, hp, hf, hfb, hl], ?_, ?_⟩
          · simp [refresh_latest, hp, hf, hfb, hl]
          · intro _
            simp [refresh_latest, get_snapshot_info, hp, hf, hfb, hl]
        · simp [refresh_latest, get_snapshot_info, hp, hf, hfb, hl]
      · simp [refresh_latest, get_snapshot_info, hp, hf, hfb]
  · simp [refresh_latest, get_snapshot_info, hp]

/-- C8 counterexample.  `convert_amount` accepts the side value `"long"`,
which is not exactly `LONG` or `SHORT`, instead of failing: the side is
strip-uppercased before the membership check. -/
theorem convert_amount_side_counterexample :
    convert_amount 2 3 "long" = .ok 6 ∧ "long" ≠ "LONG" ∧ "long" ≠ "SHORT" := by
  with_unfolding_all decide

/-- C8 (amended).  `convert_amount` computes `amount * rate`, negated when
the stripped-and-uppercased side is `SHORT`, and fails with the
invalid-side error exactly for inputs whose stripped-and-uppercased form is
neither `LONG` nor `SHORT`. -/
theorem convert_amount_normalized_side (amount rate : ℚ) (side : String) :
    (pyUpper (pyStrip side) = "LONG" →
      convert_amount amount rate side = .ok (amount * rate)) ∧
    (pyUpper (pyStrip side) = "SHORT" →
      convert_amount amount rate side = .ok (-(amount * rate))) ∧
    (pyUpper (pyStrip side) ≠ "LONG" → pyUpper (pyStrip side) ≠ "SHORT" →
      convert_amount amount rate side = .error (.invalidSide side)) := by
  refine ⟨?_, ?_, ?_⟩
  · intro h
    simp [convert_amount, h]
  · intro h
    simp [convert_amount, h]
  · intro h1 h2
    simp [convert_amount, h1, h2]

/-! ## C2: daily P&L with fewer than two rate timestamps -/

theorem quantize_zero (places : ℕ) : quantize_amount 0 places = 0 := by
  have h : ((0 : ℚ) * (10 : ℚ) ^ places) = 0 := by ring
  have hfloor : roundHalfEven 0 = 0 := by
    simp [roundHalfEven]
  simp [quantize_amount, h, hfloor]

/-- C2 counterexample.  With exactly one distinct rate timestamp, a single
USD position worth 100 and canonical base USD, `calculate_daily_pnl`
returns `value_current = 0` (all positions marked `missing_rate`), while
`calculate_portfolio_value` on the same store reports 100 — so
`value_current` is not the value under the single latest snapshot. -/
theorem calculate_daily_pnl_single_ts_counterexample :
    latestTwoTimestamps [⟨"USD", "EUR", 5, 4/5⟩] "USD" = (some 5, none) ∧
    (calculate_daily_pnl ⟨"USD"⟩ [⟨"USD", 100, .LONG⟩] [⟨"USD", "EUR", 5, 4/5⟩]
        (fun c => c = "USD" || c = "EUR") "USD" (some "USD")).map
      (fun r => (r.value_current, r.value_previous, r.pnl)) = .ok (0, none, 0) ∧
    (calculate_portfolio_value ⟨"USD"⟩ [⟨"USD", 100, .LONG⟩] [⟨"USD", "EUR", 5, 4/5⟩]
        (fun c => c = "USD" || c = "EUR") "USD" (some "USD")).map
      (·.value) = .ok 100 := by
  with_unfolding_all decide

/-- C2 (amended).  For a portfolio with at least one position, when fewer
than two distinct rate timestamps exist for the canonical base,
`calculate_daily_pnl` returns `value_previous = none` and
`pnl = value_current`, but `value_current` is 0 with every position counted
unpriced under reason `missing_rate` — not the portfolio value under the
single latest snapshot. -/
theorem calculate_daily_pnl_single_timestamp (portfolio : Portfolio)
    (positions : List Position) (rows : List FxRow) (allowed : String → Bool)
    (canonical_base_config : String) (view_base : Option String)
    (pb rvb cb : String) (t : Option ℕ)
    (hpos : positions ≠ [])
    (hpb : normalize_currency portfolio.base_currency_code = .ok pb)
    (hvb : validate_currency_code (some (requestedViewBase view_base pb)) "base" allowed =
      .ok rvb)
    (hcb : normalize_currency canonical_base_config = .ok cb)
    (hts : latestTwoTimestamps rows cb = (t, none)) :
    calculate_daily_pnl portfolio positions rows allowed canonical_base_config view_base =
      .ok ⟨pb, rvb, 0, 0, none, t, none, false, 0, positions.length, 0, positions.length,
           allMissingReasons positions, allMissingReasons positions⟩ := by
  cases positions with
  | nil => exact absurd rfl hpos
  | cons p ps =>
      cases t with
      | none =>
          simp [calculate_daily_pnl, hpb, hvb, hcb, hts, Except.mapError, quantize_zero]
      | some t0 =>
          simp [calculate_daily_pnl, hpb, hvb, hcb, hts, Except.mapError, quantize_zero]

theorem calculate_daily_pnl_single_timestamp_witness :
    calculate_daily_pnl ⟨"USD"⟩ [⟨"USD", 100, .LONG⟩] [⟨"USD", "EUR", 5, 4/5⟩]
      (fun c => c = "USD" || c = "EUR") "USD" (some "USD") =
      .ok ⟨"USD", "USD", 0, 0, none, some 5, none, false, 0, 1, 0, 1,
           ⟨["USD"], []⟩, ⟨["USD"], []⟩⟩ :=
  calculate_daily_pnl_single_timestamp ⟨"USD"⟩ [⟨"USD", 100, .LONG⟩]
    [⟨"USD", "EUR", 5, 4/5⟩] (fun c => c = "USD" || c = "EUR") "USD" (some "USD")
    "USD" "USD" "USD" (some 5)
    (by with_unfolding_all decide) (by with_unfolding_all decide)
    (by with_unfolding_all decide) (by with_unfolding_all decide)
    (by with_unfolding_all decide)

/-! ## Association-list lemmas for the rebasing theorems -/

theorem tableKeys_cons (kv : String × ℚ) (t : RateTable) :
    tableKeys (kv :: t) = kv.1 :: tableKeys t := rfl

theorem tableKeys_append (s t : RateTable) :
    tableKeys (s ++ t) = tableKeys s ++ tableKeys t := by
  simp [tableKeys]

theorem lookupRate_map_div (t : RateTable) (c : String) (r : ℚ) :
    lookupRate (t.map (fun kv => (kv.1, kv.2 / r))) c = (lookupRate t c).map (· / r) := by
  induction t with
  | nil => rfl
  | cons kv rest ih =>
      by_cases h : kv.1 = c
      · simp [lookupRate, h]
      · simp [lookupRate, h, ih]

theorem lookup_mem {t : RateTable} {c : String} {v : ℚ}
    (h : lookupRate t c = some v) : (c, v) ∈ t := by
  induction t with
  | nil => exact absurd h (by simp [lookupRate])
  | cons kv rest ih =>
      by_cases hk : kv.1 = c
      · rw [lookupRate, if_pos hk] at h
        have hv : kv.2 = v := Option.some.inj h
        have hkv : kv = (c, v) := by
          obtain ⟨k1, v1⟩ := kv
          simp only at hk hv
          rw [hk, hv]
        rw [← hkv]
        exact List.mem_cons_self _ _
      · rw [lookupRate, if_neg hk] at h
        exact List.mem_cons_of_mem _ (ih h)

theorem mem_tableKeys_of_lookup {t : RateTable} {c : String} {v : ℚ}
    (h : lookupRate t c = some v) : c ∈ tableKeys t :=
  List.mem_map_of_mem _ (lookup_mem h)

theorem dictInsert_of_not_mem {t : RateTable} {k : String} (v : ℚ)
    (h : k ∉ tableKeys t) : dictInsert k v t = t ++ [(k, v)] := by
  induction t with
  | nil => rfl
  | cons kv rest ih =>
      have h1 : ¬ kv.1 = k := fun he => h (by
        rw [tableKeys_cons, he]; exact List.mem_cons_self _ _)
      have h2 : k ∉ tableKeys rest := fun hm => h (by
        rw [tableKeys_cons]; exact List.mem_cons_of_mem _ hm)
      rw [dictInsert, if_neg h1, ih h2]
      rfl

theorem normalizeTableAux_self (t : RateTable) :
    ∀ acc : RateTable, (∀ kv ∈ t, normalize_currency kv.1 = .ok kv.1) →
    (tableKeys t).Nodup → (∀ k ∈ tableKeys t, k ∉ tableKeys acc) →
    normalizeTableAux acc t = .ok (acc ++ t) := by
  induction t with
  | nil => intro acc _ _ _; simp [normalizeTableAux]
  | cons kv rest ih =>
      intro acc hkeys hnodup hdisj
      have hk := hkeys kv (List.mem_cons_self _ _)
      have hknotin : kv.1 ∉ tableKeys acc :=
        hdisj kv.1 (by rw [tableKeys_cons]; exact List.mem_cons_self _ _)
      rw [tableKeys_cons] at hnodup
      have hkfresh : kv.1 ∉ tableKeys rest := (List.nodup_cons.mp hnodup).1
      have hnodup' : (tableKeys rest).Nodup := (List.nodup_cons.mp hnodup).2
      have hdisj' : ∀ k2 ∈ tableKeys rest, k2 ∉ tableKeys (acc ++ [(kv.1, kv.2)]) := by
        intro k2 hk2 hmem
        rw [tableKeys_append] at hmem
        rcases List.mem_append.mp hmem with hmem | hmem
        · exact hdisj k2 (by rw [tableKeys_cons]; exact List.mem_cons_of_mem _ hk2) hmem
        · have hq : k2 = kv.1 := by simpa [tableKeys] using hmem
          exact hkfresh (hq ▸ hk2)
      simp only [normalizeTableAux, hk, except_bind_ok]
      rw [dictInsert_of_not_mem kv.2 hknotin]
      rw [ih _ (fun kv2 h2 => hkeys kv2 (List.mem_cons_of_mem _ h2)) hnodup' hdisj']
      simp

theorem normalizeTable_self (t : RateTable)
    (hkeys : ∀ kv ∈ t, normalize_currency kv.1 = .ok kv.1)
    (hnodup : (tableKeys t).Nodup) : normalizeTable t = .ok t := by
  have := normalizeTableAux_self t [] hkeys hnodup (by simp [tableKeys])
  simpa [normalizeTable] using this

theorem normalizeTableUpperAux_self (t : RateTable) :
    ∀ acc : RateTable, (∀ kv ∈ t, pyUpper kv.1 = kv.1) →
    (tableKeys t).Nodup → (∀ k ∈ tableKeys t, k ∉ tableKeys acc) →
    normalizeTableUpperAux acc t = acc ++ t := by
  induction t with
  | nil => intro acc _ _ _; simp [normalizeTableUpperAux]
  | cons kv rest ih =>
      intro acc hkeys hnodup hdisj
      have hk := hkeys kv (List.mem_cons_self _ _)
      have hknotin : kv.1 ∉ tableKeys acc :=
        hdisj kv.1 (by rw [tableKeys_cons]; exact List.mem_cons_self _ _)
      rw [tableKeys_cons] at hnodup
      have hkfresh : kv.1 ∉ tableKeys rest := (List.nodup_cons.mp hnodup).1
      have hnodup' : (tableKeys rest).Nodup := (List.nodup_cons.mp hnodup).2
      have hdisj' : ∀ k2 ∈ tableKeys rest, k2 ∉ tableKeys (acc ++ [(kv.1, kv.2)]) := by
        intro k2 hk2 hmem
        rw [tableKeys_append] at hmem
        rcases List.mem_append.mp hmem with hmem | hmem
        · exact hdisj k2 (by rw [tableKeys_cons]; exact List.mem_cons_of_mem _ hk2) hmem
        · have hq : k2 = kv.1 := by simpa [tableKeys] using hmem
          exact hkfresh (hq ▸ hk2)
      rw [normalizeTableUpperAux, hk, dictInsert_of_not_mem kv.2 hknotin]
      rw [ih _ (fun kv2 h2 => hkeys kv2 (List.mem_cons_of_mem _ h2)) hnodup' hdisj']
      simp

/-! ## C3: rebasing specification -/

/-- C3.  For every rate table `R` (normalized keys, no duplicates) and
currency `b` normalizing to `nb`: when `nb` is a key of `R` with a nonzero
rate `rb`, both `rebase_rates` implementations succeed, mapping every code
of `R` to `R[code] / rb` and `nb` itself to 1; when `nb` is missing they
fail with the missing-rate `RebaseError`; when `R[nb] = 0` they fail with
the zero-rate `RebaseError`. -/
theorem rebase_rates_spec (R : RateTable) (b nb : String)
    (hkeys : ∀ kv ∈ R, normalize_currency kv.1 = .ok kv.1)
    (hkeysU : ∀ kv ∈ R, pyUpper kv.1 = kv.1)
    (hnodup : (tableKeys R).Nodup)
    (hb : normalize_currency b = .ok nb)
    (hbU : pyUpper (pyStrip b) = nb) :
    (∀ rb, lookupRate R nb = some rb → rb ≠ 0 →
      ∃ T, rebase_rates R b = .ok T ∧ rebase_rates_utils R b = .ok T ∧
        (∀ c v, lookupRate R c = some v → lookupRate T c = some (v / rb)) ∧
        lookupRate T nb = some 1) ∧
    (lookupRate R nb = none →
      rebase_rates R b = .error (.rebaseMissing nb) ∧
      rebase_rates_utils R b = .error (.rebaseMissing nb)) ∧
    (lookupRate R nb = some 0 →
      rebase_rates R b = .error (.rebaseZero nb) ∧
      rebase_rates_utils R b = .error (.rebaseZero nb)) := by
  have hnorm := normalizeTable_self R hkeys hnodup
  have hnormU := normalizeTableUpperAux_self R [] hkeysU hnodup (by simp [tableKeys])
  refine ⟨?_, ?_, ?_⟩
  · intro rb hlook hrb0
    refine ⟨R.map (fun kv => (kv.1, kv.2 / rb)), ?_, ?_, ?_, ?_⟩
    · simp [rebase_rates, hnorm, hb, hlook, hrb0]
    · simp [rebase_rates_utils, hnormU, hbU, hlook, hrb0]
    · intro c v hcv
      rw [lookupRate_map_div, hcv]
      rfl
    · rw [lookupRate_map_div, hlook]
      simp [div_self hrb0]
  · intro hnone
    constructor
    · simp [rebase_rates, hnorm, hb, hnone]
    · simp [rebase_rates_utils, hnormU, hbU, hnone]
  · intro hzero
    constructor
    · simp [rebase_rates, hnorm, hb, hzero]
    · simp [rebase_rates_utils, hnormU, hbU, hzero]

theorem rebase_rates_spec_witness :
    (∃ T, rebase_rates [("USD", 1), ("EUR", 4/5)] "eur" = .ok T ∧
      rebase_rates_utils [("USD", 1), ("EUR", 4/5)] "eur" = .ok T ∧
      (∀ c v, lookupRate [("USD", 1), ("EUR", 4/5)] c = some v →
        lookupRate T c = some (v / (4/5))) ∧
      lookupRate T "EUR" = some 1) ∧
    (rebase_rates [("USD", 1)] "JPY" = .error (.rebaseMissing "JPY") ∧
      rebase_rates_utils [("USD", 1)] "JPY" = .error (.rebaseMissing "JPY")) ∧
    (rebase_rates [("USD", 1), ("EUR", 0)] "EUR" = .error (.rebaseZero "EUR") ∧
      rebase_rates_utils [("USD", 1), ("EUR", 0)] "EUR" = .error (.rebaseZero "EUR")) := by
  refine ⟨?_, ?_, ?_⟩
  · exact (rebase_rates_spec [("USD", 1), ("EUR", 4/5)] "eur" "EUR"
      (by with_unfolding_all decide) (by with_unfolding_all decide)
      (by with_unfolding_all decide) (by with_unfolding_all decide)
      (by with_unfolding_all decide)).1 (4/5) (by with_unfolding_all decide)
      (by with_unfolding_all decide)
  · exact (rebase_rates_spec [("USD", 1)] "JPY" "JPY"
      (by with_unfolding_all decide) (by with_unfolding_all decide)
      (by with_unfolding_all decide) (by with_unfolding_all decide)
      (by with_unfolding_all decide)).2.1 (by with_unfolding_all decide)
  · exact (rebase_rates_spec [("USD", 1), ("EUR", 0)] "EUR" "EUR"
      (by with_unfolding_all decide) (by with_unfolding_all decide)
      (by with_unfolding_all decide) (by with_unfolding_all decide)
      (by with_unfolding_all decide)).2.2 (by with_unfolding_all decide)

/-! ## C6: the round-trip law -/

/-- C6.  For every valid rate table `R` (normalized, duplicate-free keys)
quoted against an original base `ob` recorded in `R` with rate 1, and every
`b` normalizing to a key `nb` of `R` with nonzero rate: the rebased table
has exactly 1 at `nb`, and rebasing it back to `ob` recovers `R` exactly
(exact arithmetic refines "within rounding tolerance of the 28-digit
round-half-to-even context"). -/
theorem rebase_rates_round_trip (R : RateTable) (b nb ob : String) (rb : ℚ)
    (hkeys : ∀ kv ∈ R, normalize_currency kv.1 = .ok kv.1)
    (hnodup : (tableKeys R).Nodup)
    (hb : normalize_currency b = .ok nb)
    (hrb : lookupRate R nb = some rb) (hrb0 : rb ≠ 0)
    (hob : normalize_currency ob = .ok ob)
    (hob1 : lookupRate R ob = some 1) :
    ∃ T, rebase_rates R b = .ok T ∧ lookupRate T nb = some 1 ∧
      rebase_rates T ob = .ok R := by
  have hnorm := normalizeTable_self R hkeys hnodup
  refine ⟨R.map (fun kv => (kv.1, kv.2 / rb)), ?_, ?_, ?_⟩
  · simp [rebase_rates, hnorm, hb, hrb, hrb0]
  · rw [lookupRate_map_div, hrb]
    simp [div_self hrb0]
  · have hkeysT : ∀ kv ∈ R.map (fun kv => (kv.1, kv.2 / rb)),
        normalize_currency kv.1 = .ok kv.1 := by
      intro kv hkv
      rcases List.mem_map.mp hkv with ⟨kv0, hkv0, rfl⟩
      exact hkeys kv0 hkv0
    have hnodupT : (tableKeys (R.map (fun kv => (kv.1, kv.2 / rb)))).Nodup := by
      simpa [tableKeys, List.map_map, Function.comp] using hnodup
    have hnormT := normalizeTable_self _ hkeysT hnodupT
    have hlookT : lookupRate (R.map (fun kv => (kv.1, kv.2 / rb))) ob = some (1 / rb) := by
      rw [lookupRate_map_div, hob1]
      rfl
    have h1rb : (1 : ℚ) / rb ≠ 0 := one_div_ne_zero hrb0
    have hmap : (R.map (fun kv => (kv.1, kv.2 / rb))).map
        (fun kv => (kv.1, kv.2 / (1 / rb))) = R := by
      rw [List.map_map]
      have hfun : ((fun kv : String × ℚ => (kv.1, kv.2 / (1 / rb))) ∘
          (fun kv : String × ℚ => (kv.1, kv.2 / rb))) = id := by
        funext kv
        show (kv.1, kv.2 / rb / (1 / rb)) = kv
        have hv : kv.2 / rb / (1 / rb) = kv.2 := by
          field_simp
        rw [hv]
      rw [hfun, List.map_id]
    simp only [rebase_rates, hnormT, except_bind_ok, hob, hlookT]
    rw [if_neg h1rb, hmap]

theorem rebase_rates_round_trip_witness :
    ∃ T, rebase_rates [("USD", 1), ("EUR", 4/5)] "EUR" = .ok T ∧
      lookupRate T "EUR" = some 1 ∧
      rebase_rates T "USD" = .ok [("USD", 1), ("EUR", 4/5)] :=
  rebase_rates_round_trip [("USD", 1), ("EUR", 4/5)] "EUR" "EUR" "USD" (4/5)
    (by with_unfolding_all decide) (by with_unfolding_all decide)
    (by with_unfolding_all decide) (by with_unfolding_all decide)
    (by with_unfolding_all decide) (by with_unfolding_all decide)
    (by with_unfolding_all decide)

/-! ## C4: the worked valuation example -/

/-- C4.  For the portfolio {USD 100 LONG, EUR 200 LONG, GBP 50 SHORT} with
canonical base USD, latest stored rates {EUR: 0.8, GBP: 0.5} at timestamp
`t`, all three currencies registry-allowed, and view base USD,
`calculate_portfolio_value` returns value 250.00 with `priced = 3`,
`unpriced = 0` and `as_of = t`. -/
theorem calculate_portfolio_value_worked_example
    (rows : List FxRow) (allowed : String → Bool) (t : ℕ)
    (husd : allowed "USD" = true) (heur : allowed "EUR" = true) (hgbp : allowed "GBP" = true)
    (hlatest : latestRates rows "USD" =
      .ok ([("EUR", 4/5), ("GBP", 1/2), ("USD", 1)], some t)) :
    calculate_portfolio_value ⟨"USD"⟩
      [⟨"USD", 100, .LONG⟩, ⟨"EUR", 200, .LONG⟩, ⟨"GBP", 50, .SHORT⟩]
      rows allowed "USD" (some "USD") =
      .ok ⟨"USD", "USD", 250, 3, 0, emptyReasonMap, some t⟩ := by
  have hnormUSD : normalize_currency "USD" = .ok "USD" := by with_unfolding_all decide
  have hnormEUR : normalize_currency "EUR" = .ok "EUR" := by with_unfolding_all decide
  have hnormGBP : normalize_currency "GBP" = .ok "GBP" := by with_unfolding_all decide
  have hreq : requestedViewBase (some "USD") "USD" = "USD" := by with_unfolding_all decide
  have hstrip : pyStrip "USD" = "USD" := by with_unfolding_all decide
  have hupper : pyUpper "USD" = "USD" := by with_unfolding_all decide
  have hascii : isAsciiStr "USD" = true := by with_unfolding_all decide
  have hvalidate : validate_currency_code (some "USD") "base" allowed = .ok "USD" := by
    simp [validate_currency_code, hstrip, hupper, hascii, husd]
  have heff : ratesInViewBase [("EUR", 4/5), ("GBP", (2 : ℚ)⁻¹), ("USD", 1)] "USD" "USD" =
      .ok [("EUR", 5/4), ("GBP", 2), ("USD", 1)] := by with_unfolding_all decide
  have hconv1 : convert_position_amount 100 "USD" "USD"
      [("EUR", 5/4), ("GBP", 2), ("USD", 1)] "LONG" = .ok 100 := by
    with_unfolding_all decide
  have hconv2 : convert_position_amount 200 "EUR" "USD"
      [("EUR", 5/4), ("GBP", 2), ("USD", 1)] "LONG" = .ok 250 := by
    with_unfolding_all decide
  have hconv3 : convert_position_amount 50 "GBP" "USD"
      [("EUR", 5/4), ("GBP", 2), ("USD", 1)] "SHORT" = .ok (-100) := by
    with_unfolding_all decide
  have hstep1 : valueStep "USD" [("EUR", 5/4), ("GBP", 2), ("USD", 1)] allowed
      emptyValueAcc ⟨"USD", 100, .LONG⟩ = .ok ⟨100, 1, 0, emptyReasonMap⟩ := by
    simp [valueStep, hnormUSD, husd, PositionType.value, hconv1, emptyValueAcc]
  have hstep2 : valueStep "USD" [("EUR", 5/4), ("GBP", 2), ("USD", 1)] allowed
      ⟨100, 1, 0, emptyReasonMap⟩ ⟨"EUR", 200, .LONG⟩ = .ok ⟨350, 2, 0, emptyReasonMap⟩ := by
    simp [valueStep, hnormEUR, heur, PositionType.value, hconv2]
    norm_num
  have hstep3 : valueStep "USD" [("EUR", 5/4), ("GBP", 2), ("USD", 1)] allowed
      ⟨350, 2, 0, emptyReasonMap⟩ ⟨"GBP", 50, .SHORT⟩ = .ok ⟨250, 3, 0, emptyReasonMap⟩ := by
    simp [valueStep, hnormGBP, hgbp, PositionType.value, hconv3]
    norm_num
  have hfold : portfolioValueFromRates
      [⟨"USD", 100, .LONG⟩, ⟨"EUR", 200, .LONG⟩, ⟨"GBP", 50, .SHORT⟩] "USD"
      [("EUR", 5/4), ("GBP", 2), ("USD", 1)] allowed = .ok ⟨250, 3, 0, emptyReasonMap⟩ := by
    simp [portfolioValueFromRates, List.foldlM_cons, List.foldlM_nil,
      hstep1, hstep2, hstep3]
  have hq : quantize_amount 250 2 = 250 := by with_unfolding_all decide
  simp [calculate_portfolio_value, hnormUSD, hreq, hvalidate, hlatest, heff, hfold, hq]

theorem calculate_portfolio_value_worked_example_witness :
    calculate_portfolio_value ⟨"USD"⟩
      [⟨"USD", 100, .LONG⟩, ⟨"EUR", 200, .LONG⟩, ⟨"GBP", 50, .SHORT⟩]
      [⟨"USD", "EUR", 7, 4/5⟩, ⟨"USD", "GBP", 7, 1/2⟩]
      (fun c => c = "USD" || c = "EUR" || c = "GBP") "USD" (some "USD") =
      .ok ⟨"USD", "USD", 250, 3, 0, emptyReasonMap, some 7⟩ :=
  calculate_portfolio_value_worked_example
    [⟨"USD", "EUR", 7, 4/5⟩, ⟨"USD", "GBP", 7, 1/2⟩]
    (fun c => c = "USD" || c = "EUR" || c = "GBP") 7
    (by with_unfolding_all decide) (by with_unfolding_all decide)
    (by with_unfolding_all decide) (by with_unfolding_all decide)

/-! ## C7: shock-simulation validation -/

/-- C7.  `simulate_currency_shock` fails with a `ValidationError` on a
portfolio with zero positions; whenever `shock_pct` lies outside ±10 (with
the input codes validating); whenever any position is unpriced under the
current effective rates — before the shock is applied, with the
current-rates message; and whenever any position is unpriced under the
shocked rates. -/
theorem simulate_currency_shock_validation (portfolio : Portfolio)
    (positions : List Position) (rows : List FxRow) (allowed : String → Bool)
    (canonical_base_config currency : String) (shock_pct : ℚ) (view_base : Option String) :
    (positions = [] →
      simulate_currency_shock portfolio positions rows allowed canonical_base_config
        currency shock_pct view_base =
        .error (.validation "Portfolio has no positions to simulate." "portfolio_id")) ∧
    (∀ pb rvb sc, positions ≠ [] →
      normalize_currency portfolio.base_currency_code = .ok pb →
      validate_currency_code (some (requestedViewBase view_base pb)) "base" allowed =
        .ok rvb →
      validate_currency_code (some currency) "currency" allowed = .ok sc →
      (shock_pct < -10 ∨ 10 < shock_pct) →
      simulate_currency_shock portfolio positions rows allowed canonical_base_config
        currency shock_pct view_base =
        .error (.validation "shock_pct must be between -10 and 10." "shock_pct")) ∧
    (∀ pb rvb sc cb rm ts eff acc, positions ≠ [] →
      normalize_currency portfolio.base_currency_code = .ok pb →
      validate_currency_code (some (requestedViewBase view_base pb)) "base" allowed =
        .ok rvb →
      validate_currency_code (some currency) "currency" allowed = .ok sc →
      ¬ (shock_pct < -10 ∨ 10 < shock_pct) →
      normalize_currency canonical_base_config = .ok cb →
      latestRates rows cb = .ok (rm, some ts) → rm ≠ [] →
      ratesInViewBase rm cb rvb = .ok eff →
      portfolioValueFromRates positions rvb eff allowed = .ok acc →
      0 < acc.unpriced →
      simulate_currency_shock portfolio positions rows allowed canonical_base_config
        currency shock_pct view_base =
        .error (.validation "Unable to price all positions with current FX rates."
          "unpriced_positions")) ∧
    (∀ pb rvb sc cb rm ts eff acc r0 shocked acc2, positions ≠ [] →
      normalize_currency portfolio.base_currency_code = .ok pb →
      validate_currency_code (some (requestedViewBase view_base pb)) "base" allowed =
        .ok rvb →
      validate_currency_code (some currency) "currency" allowed = .ok sc →
      ¬ (shock_pct < -10 ∨ 10 < shock_pct) →
      normalize_currency canonical_base_config = .ok cb →
      latestRates rows cb = .ok (rm, some ts) → rm ≠ [] →
      ratesInViewBase rm cb rvb = .ok eff →
      portfolioValueFromRates positions rvb eff allowed = .ok acc →
      lookupRate eff sc = some r0 →
      applyCurrencyShock eff sc (1 + shock_pct / 100) = .ok shocked →
      portfolioValueFromRates positions rvb shocked allowed = .ok acc2 →
      0 < acc2.unpriced →
      ∃ msg fld,
        simulate_currency_shock portfolio positions rows allowed canonical_base_config
          currency shock_pct view_base = .error (.validation msg fld)) := by
  refine ⟨?_, ?_, ?_, ?_⟩
  · intro h
    subst h
    simp [simulate_currency_shock]
  · intro pb rvb sc hpos hpb hvb hsc hout
    cases positions with
    | nil => exact absurd rfl hpos
    | cons p ps =>
        simp [simulate_currency_shock, hpb, hvb, hsc, hout]
  · intro pb rvb sc cb rm ts eff acc hpos hpb hvb hsc hin hcb hlatest hrm heff hacc hu
    cases positions with
    | nil => exact absurd rfl hpos
    | cons p ps =>
        cases rm with
        | nil => exact absurd rfl hrm
        | cons r rs =>
            simp [simulate_currency_shock, hpb, hvb, hsc, hin, hcb, hlatest, heff, hacc, hu]
  · intro pb rvb sc cb rm ts eff acc r0 shocked acc2 hpos hpb hvb hsc hin hcb hlatest hrm
      heff hacc hlook happly hacc2 hu2
    cases positions with
    | nil => exact absurd rfl hpos
    | cons p ps =>
        cases rm with
        | nil => exact absurd rfl hrm
        | cons r rs =>
            by_cases hu : 0 < acc.unpriced
            · exact ⟨"Unable to price all positions with current FX rates.",
                "unpriced_positions", by
                  simp [simulate_currency_shock, hpb, hvb, hsc, hin, hcb, hlatest, heff,
                    hacc, hu]⟩
            · exact ⟨"Unable to price all positions with shocked FX rates.",
                "unpriced_positions", by
                  simp [simulate_currency_shock, hpb, hvb, hsc, hin, hcb, hlatest, heff,
                    hacc, hu, hlook, happly, hacc2, hu2]⟩

/-! ## C9: exposure top-N collapse -/

/-- A rational already rounded to `places` decimal places. -/
def isQuantized (places : ℕ) (q : ℚ) : Prop :=
  ∃ k : ℤ, q = (k : ℚ) / (10 : ℚ) ^ places

theorem roundHalfEven_intCast (k : ℤ) : roundHalfEven (k : ℚ) = k := by
  simp [roundHalfEven]

theorem quantize_isQuantized (q : ℚ) (p : ℕ) : isQuantized p (quantize_amount q p) :=
  ⟨roundHalfEven (q * (10 : ℚ) ^ p), rfl⟩

theorem isQuantized_sum (p : ℕ) (l : List ℚ) (h : ∀ x ∈ l, isQuantized p x) :
    isQuantized p l.sum := by
  induction l with
  | nil => exact ⟨0, by simp⟩
  | cons x xs ih =>
      obtain ⟨k, hk⟩ := h x (List.mem_cons_self _ _)
      obtain ⟨m, hm⟩ := ih (fun y hy => h y (List.mem_cons_of_mem _ hy))
      refine ⟨k + m, ?_⟩
      rw [List.sum_cons, hk, hm]
      push_cast
      ring

theorem quantize_of_isQuantized {p : ℕ} {q : ℚ} (h : isQuantized p q) :
    quantize_amount q p = q := by
  obtain ⟨k, rfl⟩ := h
  have h10 : ((10 : ℚ) ^ p) ≠ 0 := by positivity
  have hmul : ((k : ℚ) / (10 : ℚ) ^ p) * (10 : ℚ) ^ p = (k : ℚ) := div_mul_cancel₀ _ h10
  rw [quantize_amount, hmul, roundHalfEven_intCast]

instance : IsTotal CurrencyExposure exposureOrd :=
  ⟨fun a b => le_total |b.base_equivalent| |a.base_equivalent|⟩

instance : IsTrans CurrencyExposure exposureOrd :=
  ⟨fun _ _ _ hab hbc => le_trans hbc hab⟩

theorem exposuresFromTotals_isQuantized (totals : List (String × ℚ × ℚ)) :
    ∀ e ∈ exposuresFromTotals totals, isQuantized 4 e.net_native ∧
      isQuantized 2 e.base_equivalent := by
  intro e he
  rcases List.mem_map.mp he with ⟨kv, _, rfl⟩
  exact ⟨quantize_isQuantized _ _, quantize_isQuantized _ _⟩

/-- C9.  When the priced positions span more than `top_n > 0` currencies,
`calculate_currency_exposure` returns the first `top_n` entries of the
exposure list sorted descending by absolute view-base magnitude, followed
by one synthetic `OTHER` entry whose `net_native` and `base_equivalent` are
the straight sums of the collapsed tail entries' fields; and the sorted
list is indeed sorted by that order. -/
theorem calculate_currency_exposure_topn (portfolio : Portfolio)
    (positions : List Position) (rows : List FxRow) (allowed : String → Bool)
    (canonical_base_config : String) (view_base : Option String) (n : ℕ)
    (pb rvb cb : String) (rm : RateTable) (ts : ℕ) (eff : RateTable) (acc : ExposureAcc)
    (hpos : positions ≠ [])
    (hpb : normalize_currency portfolio.base_currency_code = .ok pb)
    (hvb : validate_currency_code (some (requestedViewBase view_base pb)) "base" allowed =
      .ok rvb)
    (hcb : normalize_currency canonical_base_config = .ok cb)
    (hlatest : latestRates rows cb = .ok (rm, some ts))
    (hrm : rm ≠ [])
    (heff : ratesInViewBase rm cb rvb = .ok eff)
    (hloop : exposureLoop positions rvb eff allowed = .ok acc)
    (hn : 0 < n)
    (hspan : n < (exposuresFromTotals acc.totals).length) :
    calculate_currency_exposure portfolio positions rows allowed canonical_base_config
      view_base (some n) =
      .ok ⟨pb, rvb,
        (sortExposures (exposuresFromTotals acc.totals)).take n ++
          [⟨"OTHER",
            (((sortExposures (exposuresFromTotals acc.totals)).drop n).map
              (·.net_native)).sum,
            (((sortExposures (exposuresFromTotals acc.totals)).drop n).map
              (·.base_equivalent)).sum⟩],
        acc.priced, acc.unpriced, some ts, acc.reasons⟩ ∧
    (sortExposures (exposuresFromTotals acc.totals)).Sorted exposureOrd := by
  have hmemq : ∀ e ∈ sortExposures (exposuresFromTotals acc.totals),
      isQuantized 4 e.net_native ∧ isQuantized 2 e.base_equivalent := by
    intro e he
    exact exposuresFromTotals_isQuantized acc.totals e
      ((List.perm_insertionSort exposureOrd (exposuresFromTotals acc.totals)).mem_iff.mp he)
  have hq4 : quantize_amount
      (((sortExposures (exposuresFromTotals acc.totals)).drop n).map (·.net_native)).sum 4 =
      (((sortExposures (exposuresFromTotals acc.totals)).drop n).map (·.net_native)).sum := by
    refine quantize_of_isQuantized (isQuantized_sum _ _ ?_)
    intro x hx
    rcases List.mem_map.mp hx with ⟨e, he, rfl⟩
    exact (hmemq e (List.mem_of_mem_drop he)).1
  have hq2 : quantize_amount
      (((sortExposures (exposuresFromTotals acc.totals)).drop n).map
        (·.base_equivalent)).sum 2 =
      (((sortExposures (exposuresFromTotals acc.totals)).drop n).map
        (·.base_equivalent)).sum := by
    refine quantize_of_isQuantized (isQuantized_sum _ _ ?_)
    intro x hx
    rcases List.mem_map.mp hx with ⟨e, he, rfl⟩
    exact (hmemq e (List.mem_of_mem_drop he)).2
  have hlen : n < (sortExposures (exposuresFromTotals acc.totals)).length := by
    rw [sortExposures,
      (List.perm_insertionSort exposureOrd (exposuresFromTotals acc.totals)).length_eq]
    exact hspan
  constructor
  · cases positions with
    | nil => exact absurd rfl hpos
    | cons p ps =>
        cases rm with
        | nil => exact absurd rfl hrm
        | cons r rs =>
            simp only [calculate_currency_exposure, hpb, except_mapError_ok, except_bind_ok,
              hvb, hcb, hlatest, List.isEmpty_cons, Bool.false_eq_true, if_false,
              Bool.not_eq_true, heff, hloop, collapseTopN]
            rw [if_pos ⟨hn, hlen⟩, hq4, hq2]
            rfl
  · exact List.sorted_insertionSort exposureOrd (exposuresFromTotals acc.totals)

theorem calculate_currency_exposure_topn_witness :
    calculate_currency_exposure ⟨"USD"⟩
      [⟨"USD", 100, .LONG⟩, ⟨"EUR", 200, .LONG⟩, ⟨"GBP", 50, .SHORT⟩]
      [⟨"USD", "EUR", 7, 4/5⟩, ⟨"USD", "GBP", 7, 1/2⟩]
      (fun c => c = "USD" || c = "EUR" || c = "GBP") "USD" (some "USD") (some 2) =
      .ok ⟨"USD", "USD",
        (sortExposures (exposuresFromTotals
          [("USD", 100, 100), ("EUR", 200, 250), ("GBP", -50, -100)])).take 2 ++
          [⟨"OTHER",
            (((sortExposures (exposuresFromTotals
              [("USD", 100, 100), ("EUR", 200, 250), ("GBP", -50, -100)])).drop 2).map
              (·.net_native)).sum,
            (((sortExposures (exposuresFromTotals
              [("USD", 100, 100), ("EUR", 200, 250), ("GBP", -50, -100)])).drop 2).map
              (·.base_equivalent)).sum⟩],
        3, 0, some 7, emptyReasonMap⟩ ∧
    (sortExposures (exposuresFromTotals
      [("USD", 100, 100), ("EUR", 200, 250), ("GBP", -50, -100)])).Sorted exposureOrd :=
  calculate_currency_exposure_topn ⟨"USD"⟩
    [⟨"USD", 100, .LONG⟩, ⟨"EUR", 200, .LONG⟩, ⟨"GBP", 50, .SHORT⟩]
    [⟨"USD", "EUR", 7, 4/5⟩, ⟨"USD", "GBP", 7, 1/2⟩]
    (fun c => c = "USD" || c = "EUR" || c = "GBP") "USD" (some "USD") 2
    "USD" "USD" "USD" [("EUR", 4/5), ("GBP", 1/2), ("USD", 1)] 7
    [("EUR", 5/4), ("GBP", 2), ("USD", 1)]
    ⟨[("USD", 100, 100), ("EUR", 200, 250), ("GBP", -50, -100)], 3, 0, emptyReasonMap⟩
    (by with_unfolding_all decide) (by with_unfolding_all decide)
    (by with_unfolding_all decide) (by with_unfolding_all decide)
    (by with_unfolding_all decide) (by with_unfolding_all decide)
    (by with_unfolding_all decide) (by with_unfolding_all decide)
    (by with_unfolding_all decide) (by with_unfolding_all decide)

/-! ## C10: zero-rate currencies never divide, only unprice -/

theorem lookupRate_dictInsert_ne {k c : String} (v : ℚ) (t : RateTable) (h : k ≠ c) :
    lookupRate (dictInsert k v t) c = lookupRate t c := by
  induction t with
  | nil => simp [dictInsert, lookupRate, h]
  | cons kv rest ih =>
      by_cases hk : kv.1 = k
      · rw [dictInsert, if_pos hk]
        simp only [lookupRate]
        rw [if_neg (show ¬ ((k, v).1 = c) from fun hc => h hc),
          if_neg (fun hc => h (hk.symm.trans hc))]
      · rw [dictInsert, if_neg hk]
        by_cases hc : kv.1 = c
        · simp only [lookupRate]
          rw [if_pos hc, if_pos hc]
        · simp only [lookupRate]
          rw [if_neg hc, if_neg hc, ih]

theorem mem_dictInsert {kv : String × ℚ} {k : String} {v : ℚ} {t : RateTable}
    (h : kv ∈ dictInsert k v t) : kv = (k, v) ∨ kv ∈ t := by
  induction t with
  | nil => simpa [dictInsert] using h
  | cons kv0 rest ih =>
      by_cases hk : kv0.1 = k
      · rw [dictInsert, if_pos hk] at h
        rcases List.mem_cons.mp h with h | h
        · exact Or.inl h
        · exact Or.inr (List.mem_cons_of_mem _ h)
      · rw [dictInsert, if_neg hk] at h
        rcases List.mem_cons.mp h with h | h
        · exact Or.inr (h ▸ List.mem_cons_self _ _)
        · rcases ih h with h | h
          · exact Or.inl h
          · exact Or.inr (List.mem_cons_of_mem _ h)

theorem lookup_eq_none_of_not_mem {t : RateTable} {c : String}
    (h : c ∉ tableKeys t) : lookupRate t c = none := by
  induction t with
  | nil => rfl
  | cons kv rest ih =>
      have h1 : ¬ kv.1 = c := fun he => h (by
        rw [tableKeys_cons, he]; exact List.mem_cons_self _ _)
      have h2 : c ∉ tableKeys rest := fun hm => h (by
        rw [tableKeys_cons]; exact List.mem_cons_of_mem _ hm)
      rw [lookupRate, if_neg h1, ih h2]

theorem not_mem_of_lookup_none {t : RateTable} {c : String}
    (h : lookupRate t c = none) : c ∉ tableKeys t := by
  intro hmem
  induction t with
  | nil => simp [tableKeys] at hmem
  | cons kv rest ih =>
      rw [tableKeys_cons] at hmem
      rcases List.mem_cons.mp hmem with hmem | hmem
      · rw [lookupRate, if_pos hmem.symm] at h
        exact Option.noConfusion h
      · by_cases hk : kv.1 = c
        · rw [lookupRate, if_pos hk] at h
          exact Option.noConfusion h
        · rw [lookupRate, if_neg hk] at h
          exact ih h hmem

theorem lookup_of_mem_nodup {t : RateTable} {c : String} {v : ℚ}
    (hnodup : (tableKeys t).Nodup) (hmem : (c, v) ∈ t) : lookupRate t c = some v := by
  induction t with
  | nil => simp at hmem
  | cons kv rest ih =>
      rw [tableKeys_cons] at hnodup
      rcases List.mem_cons.mp hmem with hmem | hmem
      · rw [← hmem]
        simp [lookupRate]
      · have hcr : c ∈ tableKeys rest := List.mem_map_of_mem _ hmem
        have hk : ¬ kv.1 = c := fun he =>
          (List.nodup_cons.mp hnodup).1 (he ▸ hcr)
        rw [lookupRate, if_neg hk]
        exact ih (List.nodup_cons.mp hnodup).2 hmem

/-- The inversion loop never records a key whose source quote is zero
(other than the view base): such entries are skipped, so no division by a
zero rate is ever performed on them. -/
theorem invertLoop_lookup_none {vn c : String} (hne : c ≠ vn) :
    ∀ (src acc : RateTable), (∀ kv ∈ src, normalize_currency kv.1 = .ok kv.1) →
    (∀ kv ∈ src, kv.1 = c → kv.2 = 0) →
    lookupRate acc c = none →
    ∀ out, invertLoop vn src acc = .ok out → lookupRate out c = none := by
  intro src
  induction src with
  | nil =>
      intro acc _ _ hacc out hout
      rw [invertLoop] at hout
      exact (Except.ok.inj hout) ▸ hacc
  | cons kv rest ih =>
      intro acc hkeys hzero hacc out hout
      have hk := hkeys kv (List.mem_cons_self _ _)
      rw [invertLoop, hk] at hout
      simp only [except_bind_ok] at hout
      by_cases hkvn : kv.1 = vn
      · rw [if_pos hkvn] at hout
        refine ih _ (fun kv2 h2 => hkeys kv2 (List.mem_cons_of_mem _ h2))
          (fun kv2 h2 => hzero kv2 (List.mem_cons_of_mem _ h2)) ?_ out hout
        rw [lookupRate_dictInsert_ne 1 acc (fun he => hne (he.symm.trans hkvn))]
        exact hacc
      · rw [if_neg hkvn] at hout
        by_cases hkv0 : kv.2 = 0
        · rw [if_pos hkv0] at hout
          exact ih _ (fun kv2 h2 => hkeys kv2 (List.mem_cons_of_mem _ h2))
            (fun kv2 h2 => hzero kv2 (List.mem_cons_of_mem _ h2)) hacc out hout
        · rw [if_neg hkv0] at hout
          have hkc : kv.1 ≠ c := fun he => hkv0 (hzero kv (List.mem_cons_self _ _) he)
          refine ih _ (fun kv2 h2 => hkeys kv2 (List.mem_cons_of_mem _ h2))
            (fun kv2 h2 => hzero kv2 (List.mem_cons_of_mem _ h2)) ?_ out hout
          rw [lookupRate_dictInsert_ne _ acc hkc]
          exact hacc

/-- Building the effective table omits a zero-rate currency entirely: the
inversion loop skips it in both the direct and the rebased branch (where
its rebased value is still 0), so no reciprocal of a zero rate is ever
formed. -/
theorem ratesInViewBase_zero_rate_none (rm : RateTable) (cb vb c : String) (eff : RateTable)
    (hkeys : ∀ kv ∈ rm, normalize_currency kv.1 = .ok kv.1)
    (hnodup : (tableKeys rm).Nodup)
    (hcb : normalize_currency cb = .ok cb)
    (hvb : normalize_currency vb = .ok vb)
    (hc : lookupRate rm c = some 0)
    (hcvb : c ≠ vb)
    (heff : ratesInViewBase rm cb vb = .ok eff) :
    lookupRate eff c = none := by
  have hnorm := normalizeTable_self rm hkeys hnodup
  -- facts about the setdefault-extended table
  set N := if lookupRate rm cb = none then dictInsert cb 1 rm else rm with hN
  have hmemN : ∀ kv ∈ N, kv ∈ rm ∨ kv = (cb, 1) := by
    intro kv hkv
    rw [hN] at hkv
    split at hkv
    · rcases mem_dictInsert hkv with h | h
      · exact Or.inr h
      · exact Or.inl h
    · exact Or.inl hkv
  have hkeysN : ∀ kv ∈ N, normalize_currency kv.1 = .ok kv.1 := by
    intro kv hkv
    rcases hmemN kv hkv with h | h
    · exact hkeys kv h
    · rw [h]; exact hcb
  have hzeroN : ∀ kv ∈ N, kv.1 = c → kv.2 = 0 := by
    intro kv hkv hkc
    rcases hmemN kv hkv with h | h
    · have hkv' : (c, kv.2) ∈ rm := by
        obtain ⟨k1, v1⟩ := kv
        simp only at hkc
        rw [hkc] at h
        exact h
      have := lookup_of_mem_nodup hnodup hkv'
      rw [hc] at this
      exact (Option.some.inj this).symm
    · exfalso
      have hcmem : c ∈ tableKeys rm := mem_tableKeys_of_lookup hc
      rw [h] at hkc
      simp only at hkc
      -- kv = (cb, 1) only happens when lookupRate rm cb = none
      rw [hN] at hkv
      split at hkv
      · next hnone =>
          exact not_mem_of_lookup_none hnone (hkc ▸ hcmem)
      · next hsome =>
          -- N = rm, kv ∈ rm with kv = (cb,1): fine, treat as rm member
          have hkv' : (c, (1 : ℚ)) ∈ rm := by
            rw [h] at hkv
            rw [hkc] at hkv
            exact hkv
          have := lookup_of_mem_nodup hnodup hkv'
          rw [hc] at this
          exact one_ne_zero (Option.some.inj this).symm
  have hnodupN : (tableKeys N).Nodup := by
    rw [hN]
    split
    · next hnone =>
        rw [dictInsert_of_not_mem 1 (not_mem_of_lookup_none hnone), tableKeys_append,
          List.nodup_append]
        refine ⟨hnodup, ?_, ?_⟩
        · simp [tableKeys]
        · intro a ha hb
          have hacb : a = cb := by simpa [tableKeys] using hb
          exact not_mem_of_lookup_none hnone (hacb ▸ ha)
    · exact hnodup
  -- run the pipeline
  simp only [ratesInViewBase, hcb, hvb, hnorm, except_mapError_ok, except_bind_ok, ← hN] at heff
  split at heff
  · exact absurd heff (by simp)
  · next hcond =>
      by_cases hvbcb : vb = cb
      · rw [if_pos hvbcb] at heff
        simp only [except_pure_eq_ok, except_bind_ok] at heff
        rcases hinv : invertLoop vb N [] with e | out
        · rw [hinv] at heff
          exact absurd heff (by simp)
        · rw [hinv] at heff
          simp only [except_mapError_ok] at heff
          have hout : out = eff := Except.ok.inj heff
          rw [← hout]
          exact invertLoop_lookup_none hcvb N [] hkeysN hzeroN rfl out hinv
      · rw [if_neg hvbcb] at heff
        -- rebase path
        have hnormN := normalizeTable_self N hkeysN hnodupN
        rcases hlookN : lookupRate N vb with _ | br
        · exfalso
          exact hcond ⟨hvbcb, hlookN⟩
        · simp only [rebase_rates, hnormN, hvb, except_bind_ok, except_pure_eq_ok,
            hlookN] at heff
          by_cases hbr0 : br = 0
          · rw [if_pos hbr0] at heff
            exact absurd heff (by simp)
          · rw [if_neg hbr0] at heff
            simp only [except_bind_ok] at heff
            rcases hinv : invertLoop vb
                (dictInsert vb 1 (N.map (fun kv => (kv.1, kv.2 / br)))) [] with e | out
            · rw [hinv] at heff
              exact absurd heff (by simp)
            · rw [hinv] at heff
              simp only [except_mapError_ok] at heff
              have hout : out = eff := Except.ok.inj heff
              rw [← hout]
              refine invertLoop_lookup_none hcvb _ [] ?_ ?_ rfl out hinv
              · intro kv hkv
                rcases mem_dictInsert hkv with h | h
                · rw [h]; exact hvb
                · rcases List.mem_map.mp h with ⟨kv0, hkv0, rfl⟩
                  exact hkeysN kv0 hkv0
              · intro kv hkv hkc
                rcases mem_dictInsert hkv with h | h
                · exfalso
                  rw [h] at hkc
                  simp only at hkc
                  exact hcvb hkc.symm
                · rcases List.mem_map.mp h with ⟨kv0, hkv0, rfl⟩
                  simp only at hkc ⊢
                  rw [hzeroN kv0 hkv0 hkc, zero_div]

/-- C10.  A stored currency whose quoted rate is zero (and is not the view
base) is silently omitted from the effective rate table — the table builds
successfully with no division by the zero rate — and a position denominated
in it is counted as unpriced with reason `missing_rate` by the per-position
loop, not an arithmetic failure. -/
theorem zero_rate_currency_unpriced (rm : RateTable) (cb vb c : String)
    (allowed : String → Bool) (eff : RateTable) (p : Position)
    (hkeys : ∀ kv ∈ rm, normalize_currency kv.1 = .ok kv.1)
    (hnodup : (tableKeys rm).Nodup)
    (hcb : normalize_currency cb = .ok cb)
    (hvb : normalize_currency vb = .ok vb)
    (hc : lookupRate rm c = some 0)
    (hcvb : c ≠ vb)
    (heff : ratesInViewBase rm cb vb = .ok eff)
    (hallowed : allowed c = true)
    (hp : p.currency_code = c) :
    lookupRate eff c = none ∧
    ∀ acc, valueStep vb eff allowed acc p =
      .ok ⟨acc.total, acc.priced, acc.unpriced + 1,
           addReason acc.reasons .missingRate c⟩ := by
  have hnone := ratesInViewBase_zero_rate_none rm cb vb c eff hkeys hnodup hcb hvb hc hcvb heff
  refine ⟨hnone, ?_⟩
  intro acc
  have hcn : normalize_currency c = .ok c := hkeys (c, 0) (lookup_mem hc)
  have hconv : convert_position_amount p.amount c vb eff p.side.value =
      .error (.rebaseMissing c) := by
    simp only [convert_position_amount, hcn, hvb, except_bind_ok]
    rw [if_neg hcvb, hnone]
  simp only [valueStep, hp, hcn]
  simp [hallowed, hconv]

theorem zero_rate_currency_unpriced_witness :
    lookupRate [("EUR", 5/4), ("USD", 1)] "XAU" = none ∧
    ∀ acc, valueStep "USD" [("EUR", 5/4), ("USD", 1)]
      (fun c => c = "USD" || c = "EUR" || c = "XAU") acc ⟨"XAU", 10, .LONG⟩ =
      .ok ⟨acc.total, acc.priced, acc.unpriced + 1,
           addReason acc.reasons .missingRate "XAU"⟩ :=
  zero_rate_currency_unpriced [("EUR", 4/5), ("XAU", 0)] "USD" "USD" "XAU"
    (fun c => c = "USD" || c = "EUR" || c = "XAU") [("EUR", 5/4), ("USD", 1)]
    ⟨"XAU", 10, .LONG⟩
    (by with_unfolding_all decide) (by with_unfolding_all decide)
    (by with_unfolding_all decide) (by with_unfolding_all decide)
    (by with_unfolding_all decide) (by with_unfolding_all decide)
    (by with_unfolding_all decide) (by with_unfolding_all decide)
    (by with_unfolding_all decide)

end FXRisk
